import Mathlib

/-!
# Verification of the crossword grid-to-entries extractor

Shallow embedding of `src/converters.py` (the Crosshare → CAPICrossword
converter), `src/crosshare.py` (the clue-count import filter) and the
cell-update loop of `update_progress` in `src/main.py`.

Modelling conventions:
* a Python `str` grid cell is a `List Char` (so the length bookkeeping of
  `str.upper`, `"".join` and string membership is explicit);
* Python list indexing `xs[i]`, which raises `IndexError` out of range, is
  `List.get?` inside the fallible builder and is what makes
  `_build_2d_grid` (and hence `crosshare_to_capi`) return `Option`;
* `datetime.now()` is made an explicit parameter: the three calls inside
  `crosshare_to_capi` become the three `Int` arguments `now1 now2 now3`
  (each standing for `int(datetime.now().timestamp() * 1000)` at the
  moment of the corresponding call);
* the Python `dict` built by the clue-map comprehension and read with
  `.get((num, dir), "")` is modelled by `clueMapGet` (the comprehension
  lets a later duplicate key overwrite an earlier one, hence `getLast?`
  over the matching clues);
* `cell_numbers`, a `dict` filled in row-major order and iterated in
  insertion order, is an association list built by a left fold over the
  row-major cell enumeration.
-/

/-- A grid cell: the character list of the Python cell string. -/
abbrev Cell := List Char

/-- One raw Crosshare clue record `{num, dir, clue}` (dir 0 = across, 1 = down). -/
structure Clue where
  num : Nat
  dir : Nat
  clue : String
deriving DecidableEq, Repr

/-- The fields of the Crosshare input dictionary that the converter reads.
`clues`, `id`, `title`, `authorName` are read with `.get` and a default in
the source, hence `Option`; `size.rows`, `size.cols` and `grid` are read
with mandatory `[]` access. -/
structure CrosshareInput where
  rows : Nat
  cols : Nat
  grid : List Cell
  clues : Option (List Clue)
  id : Option String
  title : Option String
  authorName : Option String
deriving DecidableEq, Repr

/-- An entry position `{"x": c, "y": r}`. -/
structure Position where
  x : Nat
  y : Nat
deriving DecidableEq, Repr

/-- One CAPICrossword entry, as assembled in `_find_entries`.
`separatorLocations` is the always-empty map `{}` in the source. -/
structure Entry where
  id : String
  number : Nat
  humanNumber : String
  clue : String
  direction : String
  length : Nat
  position : Position
  separatorLocations : List (String × List Nat)
  solution : List Char
  group : List String
deriving DecidableEq, Repr

/-- The `creator` sub-dictionary of the output document. -/
structure Creator where
  name : String
  webUrl : String
deriving DecidableEq, Repr

/-- The CAPICrossword output document of `crosshare_to_capi`. -/
structure Capi where
  id : String
  number : Int
  name : String
  creator : Creator
  date : Int
  webPublicationDate : Int
  dimensionsCols : Nat
  dimensionsRows : Nat
  crosswordType : String
  solutionAvailable : Bool
  dateSolutionAvailable : Int
  entries : List Entry
deriving DecidableEq, Repr

/-- Evaluate a list comprehension whose body may fail: the first failing
element aborts the whole comprehension (a raised `IndexError` propagates). -/
def optionMap {α β : Type} (f : α → Option β) : List α → Option (List β)
  | [] => some []
  | a :: t =>
    match f a with
    | none => none
    | some b =>
      match optionMap f t with
      | none => none
      | some bs => some (b :: bs)

/-- `_build_2d_grid`: `[[flat_grid[r * cols + c] for c in range(cols)] for r in range(rows)]`.
Python indexing raises `IndexError` out of range, so the whole build is
fallible: `List.get?` is `none` exactly where Python raises. -/
def _build_2d_grid (flat : List Cell) (rows cols : Nat) : Option (List (List Cell)) :=
  optionMap (fun r => optionMap (fun c => flat.get? (r * cols + c)) (List.range cols))
    (List.range rows)

/-- `_is_block`: `cell == "."`. -/
def _is_block (cell : Cell) : Bool :=
  cell == ['.']

/-- `_is_letter`: `cell not in (".", " ", "")`. -/
def _is_letter (cell : Cell) : Bool :=
  !(cell == ['.']) && !(cell == [' ']) && !(cell == [])

/-- Reading `grid_2d[r][c]`.  Inside the converter every access is in
bounds (the builder yields `rows` lists of `cols` cells and all the
guards keep `r`/`c` in range), so the `[]` default is never consulted
there; it only totalises the Lean function. -/
def cellAt (g : List (List Cell)) (r c : Nat) : Cell :=
  (g.getD r []).getD c []

/-- `_starts_across_word`. -/
def _starts_across_word (g : List (List Cell)) (r c rows cols : Nat) : Bool :=
  if _is_block (cellAt g r c) then
    false
  else
    let left_is_boundary := (c == 0) || _is_block (cellAt g r (c - 1))
    let has_continuation := decide (c + 1 < cols) && !_is_block (cellAt g r (c + 1))
    left_is_boundary && has_continuation

/-- `_starts_down_word`. -/
def _starts_down_word (g : List (List Cell)) (r c rows cols : Nat) : Bool :=
  if _is_block (cellAt g r c) then
    false
  else
    let top_is_boundary := (r == 0) || _is_block (cellAt g (r - 1) c)
    let has_continuation := decide (r + 1 < rows) && !_is_block (cellAt g (r + 1) c)
    top_is_boundary && has_continuation

/-- The `while` loop of `_get_word_length`: starting at index `start`,
count consecutive indices satisfying `p`, for at most `fuel` steps.  With
`fuel = bound - start` this is exactly
`while start + length < bound and p (start + length): length += 1`. -/
def runFrom (p : Nat → Bool) : Nat → Nat → Nat
  | _, 0 => 0
  | start, fuel + 1 => if p start then runFrom p (start + 1) fuel + 1 else 0

/-- `_get_word_length`. -/
def _get_word_length (g : List (List Cell)) (r c rows cols : Nat) (direction : String) : Nat :=
  if direction = "across" then
    runFrom (fun j => !_is_block (cellAt g r j)) c (cols - c)
  else
    runFrom (fun i => !_is_block (cellAt g i c)) r (rows - r)

/-- `_get_solution`: for each offset in `range(length)`, the uppercased
cell if it is a letter, a single space otherwise, all joined. -/
def _get_solution (g : List (List Cell)) (r c : Nat) (length : Nat) (direction : String) :
    List Char :=
  ((List.range length).map (fun i =>
    let cell := if direction = "across" then cellAt g r (c + i) else cellAt g (r + i) c
    if _is_letter cell then cell.map Char.toUpper else [' '])).flatten

/-- Row-major cell enumeration: `for r in range(rows): for c in range(cols)`. -/
def rowMajor (rows cols : Nat) : List (Nat × Nat) :=
  (List.range rows).flatMap (fun r => (List.range cols).map (fun c => (r, c)))

/-- The condition under which the first pass of `_find_entries` assigns a
number to a cell: not a block (the `continue`), and starting an across or
a down word. -/
def numbersCell (g : List (List Cell)) (rows cols : Nat) (rc : Nat × Nat) : Bool :=
  !_is_block (cellAt g rc.1 rc.2) &&
    (_starts_across_word g rc.1 rc.2 rows cols || _starts_down_word g rc.1 rc.2 rows cols)

/-- One iteration of the numbering loop: the accumulator carries the
association list built so far (the insertion-ordered `cell_numbers` dict)
and `current_number`. -/
def numberingStep (g : List (List Cell)) (rows cols : Nat)
    (acc : List ((Nat × Nat) × Nat) × Nat) (rc : Nat × Nat) :
    List ((Nat × Nat) × Nat) × Nat :=
  if numbersCell g rows cols rc then (acc.1 ++ [(rc, acc.2)], acc.2 + 1) else acc

/-- The first pass of `_find_entries`: `cell_numbers` after the row-major
scan, with `current_number` starting at 1. -/
def cell_numbers (g : List (List Cell)) (rows cols : Nat) : List ((Nat × Nat) × Nat) :=
  ((rowMajor rows cols).foldl (numberingStep g rows cols) ([], 1)).1

/-- The clue-map comprehension `{(c["num"], c["dir"]): c["clue"] for c in clues}`
followed by `clue_map.get((num, dirCode), "")`: a later clue with the same
key overwrites an earlier one, and a missing key yields `""`. -/
def clueMapGet (clues : List Clue) (num dirCode : Nat) : String :=
  match (clues.filter (fun cl => cl.num == num && cl.dir == dirCode)).getLast? with
  | some cl => cl.clue
  | none => ""

/-- The across entry dictionary appended for numbered cell `(r, c)`. -/
def acrossEntry (g : List (List Cell)) (rows cols : Nat) (clues : List Clue)
    (r c num : Nat) : Entry :=
  let len := _get_word_length g r c rows cols "across"
  { id := Nat.repr num ++ "-across"
    number := num
    humanNumber := Nat.repr num
    clue := clueMapGet clues num 0
    direction := "across"
    length := len
    position := { x := c, y := r }
    separatorLocations := []
    solution := _get_solution g r c len "across"
    group := [Nat.repr num ++ "-across"] }

/-- The down entry dictionary appended for numbered cell `(r, c)`. -/
def downEntry (g : List (List Cell)) (rows cols : Nat) (clues : List Clue)
    (r c num : Nat) : Entry :=
  let len := _get_word_length g r c rows cols "down"
  { id := Nat.repr num ++ "-down"
    number := num
    humanNumber := Nat.repr num
    clue := clueMapGet clues num 1
    direction := "down"
    length := len
    position := { x := c, y := r }
    separatorLocations := []
    solution := _get_solution g r c len "down"
    group := [Nat.repr num ++ "-down"] }

/-- The body of the second pass of `_find_entries` for one numbered cell:
the across entry if `_starts_across_word`, then the down entry if
`_starts_down_word`. -/
def entriesFor (g : List (List Cell)) (rows cols : Nat) (clues : List Clue)
    (p : (Nat × Nat) × Nat) : List Entry :=
  (if _starts_across_word g p.1.1 p.1.2 rows cols then
    [acrossEntry g rows cols clues p.1.1 p.1.2 p.2] else []) ++
  (if _starts_down_word g p.1.1 p.1.2 rows cols then
    [downEntry g rows cols clues p.1.1 p.1.2 p.2] else [])

/-- `_find_entries`: the second pass iterates `cell_numbers.items()` in
insertion order and appends at most one across and one down entry per
numbered cell. -/
def _find_entries (g : List (List Cell)) (rows cols : Nat) (clues : List Clue) : List Entry :=
  (cell_numbers g rows cols).flatMap (entriesFor g rows cols clues)

/-- `crosshare_to_capi`.  `now1 now2 now3` are the values of the three
`int(datetime.now().timestamp() * 1000)` calls, in source order
(`date`, `webPublicationDate`, `dateSolutionAvailable`). -/
def crosshare_to_capi (now1 now2 now3 : Int) (p : CrosshareInput) : Option Capi :=
  (_build_2d_grid p.grid p.rows p.cols).map fun g2d =>
      { id := p.id.getD ""
        number := 0
        name := p.title.getD "Untitled"
        creator := { name := p.authorName.getD "Unknown", webUrl := "" }
        date := now1
        webPublicationDate := now2
        dimensionsCols := p.cols
        dimensionsRows := p.rows
        crosswordType := "quick"
        solutionAvailable := true
        dateSolutionAvailable := now3
        entries := _find_entries g2d p.rows p.cols (p.clues.getD []) }

/-- The total value of the 2D build when it succeeds: cell `(r, c)` is
`flat[r * cols + c]`, with the unused `[]` default out of range. -/
def grid2d (flat : List Cell) (rows cols : Nat) : List (List Cell) :=
  (List.range rows).map (fun r => (List.range cols).map (fun c => flat.getD (r * cols + c) []))

/-- `MIN_CLUES` from `src/crosshare.py`. -/
def MIN_CLUES : Nat := 60

/-- `MAX_CLUES` from `src/crosshare.py`. -/
def MAX_CLUES : Nat := 80

/-- `get_clue_count`: `len(puzzle.get("clues", []))`. -/
def get_clue_count (p : CrosshareInput) : Nat :=
  (p.clues.getD []).length

/-- `is_valid_puzzle_size`: `MIN_CLUES < clue_count < MAX_CLUES`. -/
def is_valid_puzzle_size (p : CrosshareInput) : Bool :=
  decide (MIN_CLUES < get_clue_count p) && decide (get_clue_count p < MAX_CLUES)

/-- One iteration of the cell-update loop of `update_progress`
(`src/main.py`): a truthy (non-empty) value stores its uppercase form at
the key, a falsy (empty) value deletes the key when present.  The
progress store is the map from cell key to filled letter. -/
def stepCell (s : String → Option (List Char)) (kv : String × List Char) :
    String → Option (List Char) :=
  if kv.2 ≠ [] then
    fun k => if k = kv.1 then some (kv.2.map Char.toUpper) else s k
  else if (s kv.1).isSome then
    fun k => if k = kv.1 then none else s k
  else
    s

/-- The whole `for key, value in request.cells.items()` loop of
`update_progress`, iterating the request pairs in order. -/
def update_cells (store : String → Option (List Char)) (cells : List (String × List Char)) :
    String → Option (List Char) :=
  cells.foldl stepCell store

/-! ### Generic helper lemmas -/

/-- `optionMap` succeeds with the pointwise values when every element
succeeds. -/
theorem optionMap_eq_some_map {α β : Type} (f : α → Option β) (g : α → β) :
    ∀ l : List α, (∀ x ∈ l, f x = some (g x)) → optionMap f l = some (l.map g)
  | [], _ => rfl
  | a :: t, h => by
    have ha : f a = some (g a) := h a (by simp)
    have ht := optionMap_eq_some_map f g t (fun x hx => h x (by simp [hx]))
    simp [optionMap, ha, ht]

/-- `optionMap` fails as soon as one element fails. -/
theorem optionMap_eq_none_of_mem {α β : Type} (f : α → Option β) :
    ∀ l : List α, ∀ x ∈ l, f x = none → optionMap f l = none
  | a :: t, x, hx, hfx => by
    rcases List.mem_cons.mp hx with h | h
    · subst h
      simp [optionMap, hfx]
    · cases hfa : f a with
      | none => simp [optionMap, hfa]
      | some b => simp [optionMap, hfa, optionMap_eq_none_of_mem f t x h hfx]

/-- Reference form of the numbering fold: number the elements satisfying
`p` consecutively starting at `n`. -/
def numberFrom {α : Type} (p : α → Bool) : List α → Nat → List (α × Nat)
  | [], _ => []
  | a :: t, n => if p a then (a, n) :: numberFrom p t (n + 1) else numberFrom p t n

theorem numberFrom_map_fst {α : Type} (p : α → Bool) :
    ∀ (l : List α) (n : Nat), (numberFrom p l n).map Prod.fst = l.filter p
  | [], _ => rfl
  | a :: t, n => by
    by_cases h : p a
    · simp [numberFrom, h, List.filter_cons, numberFrom_map_fst p t (n + 1)]
    · simp [numberFrom, h, List.filter_cons, numberFrom_map_fst p t n]

theorem numberFrom_map_snd {α : Type} (p : α → Bool) :
    ∀ (l : List α) (n : Nat), (numberFrom p l n).map Prod.snd = List.range' n (l.countP p)
  | [], _ => by simp [numberFrom]
  | a :: t, n => by
    by_cases h : p a
    · simp [numberFrom, h, List.countP_cons_of_pos, List.range'_succ,
        numberFrom_map_snd p t (n + 1)]
    · simp [numberFrom, h, List.countP_cons_of_neg, numberFrom_map_snd p t n]

theorem mem_numberFrom_fst {α : Type} (p : α → Bool) :
    ∀ (l : List α) (n : Nat) (x : α × Nat), x ∈ numberFrom p l n → x.1 ∈ l ∧ p x.1 = true
  | a :: t, n, x, hx => by
    by_cases h : p a
    · rw [numberFrom, if_pos h] at hx
      rcases List.mem_cons.mp hx with h1 | h1
      · subst h1; exact ⟨by simp, h⟩
      · have := mem_numberFrom_fst p t (n + 1) x h1
        exact ⟨by simp [this.1], this.2⟩
    · rw [numberFrom, if_neg h] at hx
      have := mem_numberFrom_fst p t n x hx
      exact ⟨by simp [this.1], this.2⟩

/-- The numbering fold characterised: it appends the `numberFrom`
numbering of the scanned list and advances the counter by the number of
matches. -/
theorem foldl_numberingStep (g : List (List Cell)) (rows cols : Nat) :
    ∀ (l : List (Nat × Nat)) (A : List ((Nat × Nat) × Nat)) (n : Nat),
      l.foldl (numberingStep g rows cols) (A, n) =
        (A ++ numberFrom (numbersCell g rows cols) l n,
          n + l.countP (numbersCell g rows cols))
  | [], A, n => by simp [numberFrom]
  | rc :: rest, A, n => by
    rw [List.foldl_cons]
    by_cases h : numbersCell g rows cols rc
    · rw [show numberingStep g rows cols (A, n) rc = (A ++ [(rc, n)], n + 1) from by
        simp [numberingStep, h]]
      rw [foldl_numberingStep g rows cols rest (A ++ [(rc, n)]) (n + 1)]
      simp [numberFrom, h, List.countP_cons_of_pos, Prod.ext_iff]
      omega
    · rw [show numberingStep g rows cols (A, n) rc = (A, n) from by simp [numberingStep, h]]
      rw [foldl_numberingStep g rows cols rest A n]
      simp [numberFrom, h, List.countP_cons_of_neg]

/-- `cell_numbers` in closed form. -/
theorem cell_numbers_eq (g : List (List Cell)) (rows cols : Nat) :
    cell_numbers g rows cols = numberFrom (numbersCell g rows cols) (rowMajor rows cols) 1 := by
  unfold cell_numbers
  rw [foldl_numberingStep]
  simp

/-! ### Lemmas about the scan loop `runFrom` -/

theorem runFrom_le (p : Nat → Bool) : ∀ (fuel start : Nat), runFrom p start fuel ≤ fuel
  | 0, _ => Nat.le_refl 0
  | fuel + 1, start => by
    unfold runFrom
    by_cases h : p start
    · rw [if_pos h]
      exact Nat.succ_le_succ (runFrom_le p fuel (start + 1))
    · rw [if_neg h]
      exact Nat.zero_le _

theorem runFrom_true (p : Nat → Bool) :
    ∀ (fuel start i : Nat), i < runFrom p start fuel → p (start + i) = true
  | fuel + 1, start, i, hi => by
    by_cases h : p start = true
    · rw [runFrom, if_pos h] at hi
      cases i with
      | zero => simpa using h
      | succ j =>
        have := runFrom_true p fuel (start + 1) j (by omega)
        simpa [Nat.add_assoc, Nat.add_comm 1 j] using this
    · rw [runFrom, if_neg h] at hi
      omega

theorem runFrom_stop (p : Nat → Bool) :
    ∀ (fuel start : Nat),
      runFrom p start fuel = fuel ∨ p (start + runFrom p start fuel) = false
  | 0, _ => Or.inl rfl
  | fuel + 1, start => by
    by_cases h : p start = true
    · rw [runFrom, if_pos h]
      rcases runFrom_stop p fuel (start + 1) with he | hf
      · exact Or.inl (by omega)
      · right
        rw [show start + (runFrom p (start + 1) fuel + 1) =
          start + 1 + runFrom p (start + 1) fuel from by omega]
        exact hf
    · rw [runFrom, if_neg h]
      right
      simpa using h

theorem runFrom_ge_two (p : Nat → Bool) (fuel start : Nat)
    (hf : 2 ≤ fuel) (h0 : p start = true) (h1 : p (start + 1) = true) :
    2 ≤ runFrom p start fuel := by
  obtain ⟨f, rfl⟩ : ∃ f, fuel = f + 2 := ⟨fuel - 2, by omega⟩
  rw [runFrom, if_pos h0, runFrom, if_pos h1]
  omega

/-! ### Lemmas about the start predicates and grid access -/

theorem starts_across_iff (g : List (List Cell)) (r c rows cols : Nat) :
    _starts_across_word g r c rows cols = true ↔
      _is_block (cellAt g r c) = false ∧
      (c = 0 ∨ _is_block (cellAt g r (c - 1)) = true) ∧
      (c + 1 < cols ∧ _is_block (cellAt g r (c + 1)) = false) := by
  unfold _starts_across_word
  by_cases hb : _is_block (cellAt g r c) <;> simp [hb]

theorem starts_down_iff (g : List (List Cell)) (r c rows cols : Nat) :
    _starts_down_word g r c rows cols = true ↔
      _is_block (cellAt g r c) = false ∧
      (r = 0 ∨ _is_block (cellAt g (r - 1) c) = true) ∧
      (r + 1 < rows ∧ _is_block (cellAt g (r + 1) c) = false) := by
  unfold _starts_down_word
  by_cases hb : _is_block (cellAt g r c) <;> simp [hb]

theorem mem_rowMajor (rows cols r c : Nat) :
    (r, c) ∈ rowMajor rows cols ↔ r < rows ∧ c < cols := by
  simp only [rowMajor, List.mem_flatMap, List.mem_map, List.mem_range, Prod.mk.injEq]
  constructor
  · rintro ⟨a, ha, b, hb, h1, h2⟩
    subst h1; subst h2
    exact ⟨ha, hb⟩
  · rintro ⟨h1, h2⟩
    exact ⟨r, h1, c, h2, rfl, rfl⟩

theorem cellAt_grid2d (flat : List Cell) (rows cols r c : Nat) (hr : r < rows) (hc : c < cols) :
    cellAt (grid2d flat rows cols) r c = flat.getD (r * cols + c) [] := by
  unfold cellAt grid2d
  simp only [List.getD_eq_getElem?_getD, List.getElem?_map, List.getElem?_range hr,
    Option.map_some', Option.getD_some, List.getElem?_range hc]

/-- In-range flat indices stay below `rows * cols`. -/
theorem flat_index_lt (r c rows cols : Nat) (hr : r < rows) (hc : c < cols) :
    r * cols + c < rows * cols :=
  calc r * cols + c < r * cols + cols := by omega
  _ = (r + 1) * cols := by ring
  _ ≤ rows * cols := Nat.mul_le_mul_right cols hr

/-- An in-range cell of a well-sized flat array is one of its members. -/
theorem cellAt_mem_flat (flat : List Cell) (rows cols r c : Nat)
    (hlen : rows * cols ≤ flat.length) (hr : r < rows) (hc : c < cols) :
    cellAt (grid2d flat rows cols) r c ∈ flat := by
  rw [cellAt_grid2d flat rows cols r c hr hc]
  have hidx : r * cols + c < flat.length :=
    Nat.lt_of_lt_of_le (flat_index_lt r c rows cols hr hc) hlen
  rw [List.getD_eq_getElem?_getD, List.getElem?_eq_getElem hidx]
  simp

/-! ### The 2D build (claim C1) -/

/-- When the flat array covers `rows * cols` indices, the build succeeds
and returns `grid2d`. -/
theorem build_eq_some (flat : List Cell) (rows cols : Nat)
    (h : rows * cols ≤ flat.length) :
    _build_2d_grid flat rows cols = some (grid2d flat rows cols) := by
  unfold _build_2d_grid grid2d
  apply optionMap_eq_some_map
  intro r hr
  apply optionMap_eq_some_map
  intro c hc
  rw [List.mem_range] at hr hc
  have hidx : r * cols + c < flat.length :=
    Nat.lt_of_lt_of_le (flat_index_lt r c rows cols hr hc) h
  rw [List.get?_eq_getElem?, List.getElem?_eq_getElem hidx]
  simp [List.getElem?_eq_getElem hidx]

/-- When the flat array is shorter than `rows * cols`, the access to the
last cell `(rows - 1, cols - 1)` is out of range and the build fails. -/
theorem build_eq_none (flat : List Cell) (rows cols : Nat)
    (h : flat.length < rows * cols) :
    _build_2d_grid flat rows cols = none := by
  rcases rows with _ | m
  · simp at h
  rcases cols with _ | k
  · simp at h
  unfold _build_2d_grid
  apply optionMap_eq_none_of_mem _ _ m (by simp)
  apply optionMap_eq_none_of_mem _ _ k (by simp)
  rw [List.get?_eq_getElem?]
  apply List.getElem?_eq_none
  have hexp : (m + 1) * (k + 1) = m * (k + 1) + (k + 1) := by ring
  rw [hexp] at h
  omega

/-- C1 counterexample input: a 2×2 grid whose flat array has 5 cells,
one more than `rows * cols`. -/
def longInput : CrosshareInput :=
  { rows := 2, cols := 2, grid := [['A'], ['B'], ['C'], ['D'], ['E']],
    clues := none, id := none, title := none, authorName := none }

/-- **C1, counterexample.**  The claim says the extractor fails if and
only if the flat array's length differs from `rows * cols`, and in
particular that a longer array is rejected.  On `longInput` the length
(5) differs from `rows * cols` (4), yet the conversion succeeds: the
extra cell is silently ignored. -/
theorem C1_counterexample :
    longInput.grid.length ≠ longInput.rows * longInput.cols ∧
    (crosshare_to_capi 0 0 0 longInput).isSome = true := by
  decide

/-- **C1 (amended).**  The extractor fails exactly when the flat cell
array is SHORTER than `rows * cols` (the, then out-of-range, access to
cell `(rows - 1, cols - 1)` raises); an array longer than `rows * cols`
is accepted and its trailing cells are silently ignored. -/
theorem C1_fails_iff_too_short (now1 now2 now3 : Int) (p : CrosshareInput) :
    crosshare_to_capi now1 now2 now3 p = none ↔ p.grid.length < p.rows * p.cols := by
  unfold crosshare_to_capi
  rw [Option.map_eq_none']
  constructor
  · intro h
    by_contra hge
    rw [build_eq_some p.grid p.rows p.cols (by omega)] at h
    exact Option.noConfusion h
  · intro h
    exact build_eq_none p.grid p.rows p.cols h

/-! ### Purity up to the clock (claim C6) -/

/-- Zero out the three clock-derived fields of an output document. -/
def stripDates (o : Option Capi) : Option Capi :=
  o.map fun c => { c with date := 0, webPublicationDate := 0, dateSolutionAvailable := 0 }

/-- C6 counterexample input: a well-sized 1×3 grid. -/
def catInput : CrosshareInput :=
  { rows := 1, cols := 3, grid := [['C'], ['A'], ['T']],
    clues := some [{ num := 1, dir := 0, clue := "Feline" }],
    id := some "cat1", title := some "Cat", authorName := some "A" }

/-- **C6, counterexample.**  The claim says two invocations of
`crosshare_to_capi` on the same (well-sized) input produce identical
documents, every field equal including the date fields.  The date fields
are taken from `datetime.now()` at call time, so two invocations under
different clock readings differ. -/
theorem C6_counterexample :
    catInput.grid.length = catInput.rows * catInput.cols ∧
    crosshare_to_capi 0 0 0 catInput ≠ crosshare_to_capi 1000 1000 1000 catInput := by
  decide

/-- **C6 (amended).**  The extractor is deterministic in everything but
the clock: two invocations on the same input agree on every field except
`date`, `webPublicationDate` and `dateSolutionAvailable`, whatever the
clock read at either call (no well-sizedness needed). -/
theorem C6_deterministic_up_to_dates (t1 t2 t3 u1 u2 u3 : Int) (p : CrosshareInput) :
    stripDates (crosshare_to_capi t1 t2 t3 p) = stripDates (crosshare_to_capi u1 u2 u3 p) := by
  unfold crosshare_to_capi stripDates
  cases _build_2d_grid p.grid p.rows p.cols <;> rfl

/-! ### Entry membership (second pass of `_find_entries`) -/

/-- Every emitted entry is the across or down entry of some numbered cell. -/
theorem mem_find_entries (g : List (List Cell)) (rows cols : Nat) (clues : List Clue)
    (e : Entry) (he : e ∈ _find_entries g rows cols clues) :
    ∃ r c num, ((r, c), num) ∈ cell_numbers g rows cols ∧
      ((_starts_across_word g r c rows cols = true ∧
          e = acrossEntry g rows cols clues r c num) ∨
       (_starts_down_word g r c rows cols = true ∧
          e = downEntry g rows cols clues r c num)) := by
  unfold _find_entries at he
  rcases List.mem_flatMap.mp he with ⟨p, hp, hep⟩
  obtain ⟨⟨r, c⟩, num⟩ := p
  refine ⟨r, c, num, hp, ?_⟩
  unfold entriesFor at hep
  rcases List.mem_append.mp hep with h | h
  · by_cases ha : _starts_across_word g r c rows cols
    · rw [if_pos ha] at h
      exact Or.inl ⟨ha, by simpa using h⟩
    · rw [if_neg ha] at h
      simp at h
  · by_cases hd : _starts_down_word g r c rows cols
    · rw [if_pos hd] at h
      exact Or.inr ⟨hd, by simpa using h⟩
    · rw [if_neg hd] at h
      simp at h

/-- A cell passes the numbering test exactly when one of the start
predicates holds (they already exclude blocks). -/
theorem numbersCell_eq_or (g : List (List Cell)) (rows cols : Nat) (rc : Nat × Nat) :
    numbersCell g rows cols rc =
      (_starts_across_word g rc.1 rc.2 rows cols || _starts_down_word g rc.1 rc.2 rows cols) := by
  unfold numbersCell
  by_cases hb : _is_block (cellAt g rc.1 rc.2)
  · simp [hb, _starts_across_word, _starts_down_word]
  · simp [hb]

/-- The coordinates of a numbered cell lie inside the grid bounds. -/
theorem cell_numbers_bounds (g : List (List Cell)) (rows cols : Nat)
    (r c num : Nat) (h : ((r, c), num) ∈ cell_numbers g rows cols) :
    r < rows ∧ c < cols := by
  rw [cell_numbers_eq] at h
  have := mem_numberFrom_fst (numbersCell g rows cols) (rowMajor rows cols) 1 ((r, c), num) h
  exact (mem_rowMajor rows cols r c).mp this.1

/-- **C2.**  On a well-sized grid the numbering pass assigns exactly the
numbers `1..K`, where `K` is the count of row-major cells satisfying
(starts-across OR starts-down), in strictly increasing row-major scan
order (the assigned numbers read `[1, 2, ..., K]` alongside the filtered
scan), with no duplicates and no gaps; a block cell or a cell starting no
word is never a key; and every emitted entry (across and down alike)
carries the number assigned to its start cell, so a cell starting both
words shares its single number between both entries. -/
theorem C2_numbering (flat : List Cell) (rows cols : Nat) (clues : List Clue)
    (h : flat.length = rows * cols) :
    ((cell_numbers (grid2d flat rows cols) rows cols).map Prod.snd =
      List.range' 1 ((rowMajor rows cols).countP (fun rc =>
        _starts_across_word (grid2d flat rows cols) rc.1 rc.2 rows cols ||
        _starts_down_word (grid2d flat rows cols) rc.1 rc.2 rows cols))) ∧
    ((cell_numbers (grid2d flat rows cols) rows cols).map Prod.fst =
      (rowMajor rows cols).filter (numbersCell (grid2d flat rows cols) rows cols)) ∧
    (∀ e ∈ _find_entries (grid2d flat rows cols) rows cols clues,
      ((e.position.y, e.position.x), e.number) ∈
        cell_numbers (grid2d flat rows cols) rows cols) := by
  refine ⟨?_, ?_, ?_⟩
  · rw [cell_numbers_eq, numberFrom_map_snd]
    congr 1
    exact List.countP_congr fun rc _ => by
      rw [numbersCell_eq_or]
  · rw [cell_numbers_eq, numberFrom_map_fst]
  · intro e he
    rcases mem_find_entries _ rows cols clues e he with ⟨r, c, num, hmem, hcase⟩
    rcases hcase with ⟨_, rfl⟩ | ⟨_, rfl⟩
    · simpa [acrossEntry] using hmem
    · simpa [downEntry] using hmem

/-- The 3×3 CAT/A../R.. grid of the repository's tests, flattened. -/
def crossFlat : List Cell :=
  [['C'], ['A'], ['T'], ['A'], ['.'], ['.'], ['R'], ['.'], ['.']]

/-- Witness for C2 at the concrete 3×3 CAT/CAR grid. -/
theorem C2_numbering_witness :
    crossFlat.length = 3 * 3 ∧
    (((cell_numbers (grid2d crossFlat 3 3) 3 3).map Prod.snd =
      List.range' 1 ((rowMajor 3 3).countP (fun rc =>
        _starts_across_word (grid2d crossFlat 3 3) rc.1 rc.2 3 3 ||
        _starts_down_word (grid2d crossFlat 3 3) rc.1 rc.2 3 3))) ∧
    ((cell_numbers (grid2d crossFlat 3 3) 3 3).map Prod.fst =
      (rowMajor 3 3).filter (numbersCell (grid2d crossFlat 3 3) 3 3)) ∧
    (∀ e ∈ _find_entries (grid2d crossFlat 3 3) 3 3 [],
      ((e.position.y, e.position.x), e.number) ∈
        cell_numbers (grid2d crossFlat 3 3) 3 3)) :=
  ⟨by decide, C2_numbering crossFlat 3 3 [] (by decide)⟩

/-! ### Entry shape (claim C3) -/

/-- **C3.**  On a well-sized grid, every emitted entry has length at
least 2, its start cell satisfies the start predicate matching its
direction, and its length is the run of consecutive non-block cells from
the start cell: every cell of the span is non-block and the span ends at
the first block or at the grid boundary. -/
theorem C3_entry_shape (flat : List Cell) (rows cols : Nat) (clues : List Clue)
    (h : flat.length = rows * cols) :
    ∀ e ∈ _find_entries (grid2d flat rows cols) rows cols clues,
      2 ≤ e.length ∧
      ((e.direction = "across" ∧
          _starts_across_word (grid2d flat rows cols) e.position.y e.position.x rows cols
            = true ∧
          (∀ i < e.length,
            _is_block (cellAt (grid2d flat rows cols) e.position.y (e.position.x + i))
              = false) ∧
          (e.position.x + e.length = cols ∨
            _is_block (cellAt (grid2d flat rows cols) e.position.y (e.position.x + e.length))
              = true)) ∨
       (e.direction = "down" ∧
          _starts_down_word (grid2d flat rows cols) e.position.y e.position.x rows cols
            = true ∧
          (∀ i < e.length,
            _is_block (cellAt (grid2d flat rows cols) (e.position.y + i) e.position.x)
              = false) ∧
          (e.position.y + e.length = rows ∨
            _is_block (cellAt (grid2d flat rows cols) (e.position.y + e.length) e.position.x)
              = true))) := by
  intro e he
  rcases mem_find_entries _ rows cols clues e he with ⟨r, c, num, hmem, hcase⟩
  rcases hcase with ⟨ha, rfl⟩ | ⟨hd, rfl⟩
  · -- across entry
    rcases (starts_across_iff _ r c rows cols).mp ha with ⟨hb0, _, hcc, hb1⟩
    have hx : (acrossEntry (grid2d flat rows cols) rows cols clues r c num).position.x = c := rfl
    have hy : (acrossEntry (grid2d flat rows cols) rows cols clues r c num).position.y = r := rfl
    have hlen : (acrossEntry (grid2d flat rows cols) rows cols clues r c num).length =
        runFrom (fun j => !_is_block (cellAt (grid2d flat rows cols) r j)) c (cols - c) := by
      simp [acrossEntry, _get_word_length]
    have hdir : (acrossEntry (grid2d flat rows cols) rows cols clues r c num).direction
        = "across" := rfl
    rw [hx, hy, hlen, hdir]
    set p := fun j => !_is_block (cellAt (grid2d flat rows cols) r j) with hp
    have hfuel : 2 ≤ cols - c := by omega
    have hp0 : p c = true := by simp [hp, hb0]
    have hp1 : p (c + 1) = true := by simp [hp, hb1]
    have h2 : 2 ≤ runFrom p c (cols - c) := runFrom_ge_two p (cols - c) c hfuel hp0 hp1
    refine ⟨h2, Or.inl ⟨rfl, ha, ?_, ?_⟩⟩
    · intro i hi
      have := runFrom_true p (cols - c) c i hi
      simpa [hp] using this
    · rcases runFrom_stop p (cols - c) c with hall | hstop
      · left
        omega
      · right
        simpa [hp] using hstop
  · -- down entry
    rcases (starts_down_iff _ r c rows cols).mp hd with ⟨hb0, _, hrr, hb1⟩
    have hx : (downEntry (grid2d flat rows cols) rows cols clues r c num).position.x = c := rfl
    have hy : (downEntry (grid2d flat rows cols) rows cols clues r c num).position.y = r := rfl
    have hlen : (downEntry (grid2d flat rows cols) rows cols clues r c num).length =
        runFrom (fun i => !_is_block (cellAt (grid2d flat rows cols) i c)) r (rows - r) := by
      simp [downEntry, _get_word_length]
    have hdir : (downEntry (grid2d flat rows cols) rows cols clues r c num).direction
        = "down" := rfl
    rw [hx, hy, hlen, hdir]
    set p := fun i => !_is_block (cellAt (grid2d flat rows cols) i c) with hp
    have hfuel : 2 ≤ rows - r := by omega
    have hp0 : p r = true := by simp [hp, hb0]
    have hp1 : p (r + 1) = true := by simp [hp, hb1]
    have h2 : 2 ≤ runFrom p r (rows - r) := runFrom_ge_two p (rows - r) r hfuel hp0 hp1
    refine ⟨h2, Or.inr ⟨rfl, hd, ?_, ?_⟩⟩
    · intro i hi
      have := runFrom_true p (rows - r) r i hi
      simpa [hp] using this
    · rcases runFrom_stop p (rows - r) r with hall | hstop
      · left
        omega
      · right
        simpa [hp] using hstop

/-- Witness for C3 at the concrete 3×3 CAT/CAR grid. -/
theorem C3_entry_shape_witness :
    crossFlat.length = 3 * 3 ∧
    (∀ e ∈ _find_entries (grid2d crossFlat 3 3) 3 3 [],
      2 ≤ e.length ∧
      ((e.direction = "across" ∧
          _starts_across_word (grid2d crossFlat 3 3) e.position.y e.position.x 3 3 = true ∧
          (∀ i < e.length,
            _is_block (cellAt (grid2d crossFlat 3 3) e.position.y (e.position.x + i))
              = false) ∧
          (e.position.x + e.length = 3 ∨
            _is_block (cellAt (grid2d crossFlat 3 3) e.position.y (e.position.x + e.length))
              = true)) ∨
       (e.direction = "down" ∧
          _starts_down_word (grid2d crossFlat 3 3) e.position.y e.position.x 3 3 = true ∧
          (∀ i < e.length,
            _is_block (cellAt (grid2d crossFlat 3 3) (e.position.y + i) e.position.x)
              = false) ∧
          (e.position.y + e.length = 3 ∨
            _is_block (cellAt (grid2d crossFlat 3 3) (e.position.y + e.length) e.position.x)
              = true)))) :=
  ⟨by decide, C3_entry_shape crossFlat 3 3 [] (by decide)⟩

/-! ### Solution length and contents (claims C4 and C7) -/

/-- Sum of a map whose values are all 1. -/
theorem sum_map_ones {α : Type} (f : α → Nat) :
    ∀ l : List α, (∀ x ∈ l, f x = 1) → (l.map f).sum = l.length
  | [], _ => rfl
  | a :: t, h => by
    have ha : f a = 1 := h a (by simp)
    have ht := sum_map_ones f t (fun x hx => h x (by simp [hx]))
    simp [ha, ht]
    omega

/-- A word span stays inside the grid bounds: cell `i` of an across span
starting at an in-range `(r, c)` has column `c + i < cols`. -/
theorem span_lt (start len bound i : Nat) (hlen : len ≤ bound - start) (hi : i < len) :
    start + i < bound := by
  omega

/-- The solution piece emitted for one cell has exactly one character
when the cell string has exactly one character. -/
theorem piece_length_one (cell : Cell) (hone : cell.length = 1) :
    (if _is_letter cell then cell.map Char.toUpper else [' ']).length = 1 := by
  by_cases hl : _is_letter cell <;> simp [hl, hone]

/-- **C4.**  On a well-sized grid of single-character cells, the
solution string of every emitted entry has exactly `length` characters. -/
theorem C4_solution_length (flat : List Cell) (rows cols : Nat) (clues : List Clue)
    (h : flat.length = rows * cols) (hone : ∀ s ∈ flat, s.length = 1) :
    ∀ e ∈ _find_entries (grid2d flat rows cols) rows cols clues,
      e.solution.length = e.length := by
  intro e he
  rcases mem_find_entries _ rows cols clues e he with ⟨r, c, num, hmem, hcase⟩
  have hbounds := cell_numbers_bounds _ rows cols r c num hmem
  rcases hcase with ⟨ha, rfl⟩ | ⟨hd, rfl⟩
  · have hsol : (acrossEntry (grid2d flat rows cols) rows cols clues r c num).solution =
        _get_solution (grid2d flat rows cols) r c
          (_get_word_length (grid2d flat rows cols) r c rows cols "across") "across" := rfl
    have hlen : (acrossEntry (grid2d flat rows cols) rows cols clues r c num).length =
        _get_word_length (grid2d flat rows cols) r c rows cols "across" := rfl
    rw [hsol, hlen]
    set L := _get_word_length (grid2d flat rows cols) r c rows cols "across" with hL
    have hLle : L ≤ cols - c := by
      rw [hL]
      unfold _get_word_length
      rw [if_pos rfl]
      exact runFrom_le _ _ _
    unfold _get_solution
    rw [List.length_flatten, List.map_map, sum_map_ones _ _ ?_, List.length_range]
    intro i hi
    rw [List.mem_range] at hi
    have hci : c + i < cols := span_lt c L cols i hLle hi
    have hcell : cellAt (grid2d flat rows cols) r (c + i) ∈ flat :=
      cellAt_mem_flat flat rows cols r (c + i) (by omega) hbounds.1 hci
    simpa using piece_length_one _ (hone _ hcell)
  · have hsol : (downEntry (grid2d flat rows cols) rows cols clues r c num).solution =
        _get_solution (grid2d flat rows cols) r c
          (_get_word_length (grid2d flat rows cols) r c rows cols "down") "down" := rfl
    have hlen : (downEntry (grid2d flat rows cols) rows cols clues r c num).length =
        _get_word_length (grid2d flat rows cols) r c rows cols "down" := rfl
    rw [hsol, hlen]
    set L := _get_word_length (grid2d flat rows cols) r c rows cols "down" with hL
    have hLle : L ≤ rows - r := by
      rw [hL]
      unfold _get_word_length
      rw [if_neg (by decide)]
      exact runFrom_le _ _ _
    unfold _get_solution
    rw [List.length_flatten, List.map_map, sum_map_ones _ _ ?_, List.length_range]
    intro i hi
    rw [List.mem_range] at hi
    have hri : r + i < rows := span_lt r L rows i hLle hi
    have hcell : cellAt (grid2d flat rows cols) (r + i) c ∈ flat :=
      cellAt_mem_flat flat rows cols (r + i) c (by omega) hri hbounds.2
    simpa using piece_length_one _ (hone _ hcell)

/-- Witness for C4 at the concrete 3×3 CAT/CAR grid. -/
theorem C4_solution_length_witness :
    crossFlat.length = 3 * 3 ∧ (∀ s ∈ crossFlat, s.length = 1) ∧
    (∀ e ∈ _find_entries (grid2d crossFlat 3 3) 3 3 [],
      e.solution.length = e.length) :=
  ⟨by decide, by decide, C4_solution_length crossFlat 3 3 [] (by decide) (by decide)⟩

/-- A flatten of single-character pieces is the list of their heads. -/
theorem flatten_singletons :
    ∀ l : List (List Char), (∀ x ∈ l, x.length = 1) →
      l.flatten = l.map (fun x => x.headD ' ')
  | [], _ => rfl
  | x :: t, h => by
    have hx : x.length = 1 := h x (by simp)
    obtain ⟨a, rfl⟩ : ∃ a, x = [a] := by
      cases x with
      | nil => simp at hx
      | cons a y =>
        cases y with
        | nil => exact ⟨a, rfl⟩
        | cons b z => simp at hx
    simp [flatten_singletons t (fun y hy => h y (by simp [hy]))]

/-- The grid cell that position `i` of an entry's word span reads, in the
direction of the entry. -/
def entryCell (g : List (List Cell)) (e : Entry) (i : Nat) : Cell :=
  if e.direction = "across" then cellAt g e.position.y (e.position.x + i)
  else cellAt g (e.position.y + i) e.position.x

/-- **C7.**  On a well-sized grid of single-character cells, position `i`
of an emitted entry's solution shows the uppercased letter of span cell
`i` when that cell is a letter under the permissive `_is_letter`
classification, and a single space otherwise (any non-block, non-letter
cell counts as empty). -/
theorem C7_solution_cells (flat : List Cell) (rows cols : Nat) (clues : List Clue)
    (h : flat.length = rows * cols) (hone : ∀ s ∈ flat, s.length = 1) :
    ∀ e ∈ _find_entries (grid2d flat rows cols) rows cols clues, ∀ i, i < e.length →
      e.solution.get? i = some
        (if _is_letter (entryCell (grid2d flat rows cols) e i) then
          ((entryCell (grid2d flat rows cols) e i).headD ' ').toUpper
        else ' ') := by
  intro e he i hi
  rcases mem_find_entries _ rows cols clues e he with ⟨r, c, num, hmem, hcase⟩
  have hbounds := cell_numbers_bounds _ rows cols r c num hmem
  rcases hcase with ⟨ha, rfl⟩ | ⟨hd, rfl⟩
  · set g := grid2d flat rows cols with hg
    have hcellE : entryCell g (acrossEntry g rows cols clues r c num) i
        = cellAt g r (c + i) := by
      simp [entryCell, acrossEntry]
    set L := _get_word_length g r c rows cols "across" with hL
    have hiL : i < L := hi
    have hsol : (acrossEntry g rows cols clues r c num).solution =
        _get_solution g r c L "across" := rfl
    rw [hsol, hcellE]
    have hLle : L ≤ cols - c := by
      rw [hL]
      unfold _get_word_length
      rw [if_pos rfl]
      exact runFrom_le _ _ _
    have hones : ∀ x ∈ (List.range L).map (fun j =>
        if _is_letter (cellAt g r (c + j)) then (cellAt g r (c + j)).map Char.toUpper
        else [' ']), x.length = 1 := by
      intro x hx
      rcases List.mem_map.mp hx with ⟨j, hj, rfl⟩
      rw [List.mem_range] at hj
      have hcj : c + j < cols := span_lt c L cols j hLle hj
      exact piece_length_one _
        (hone _ (cellAt_mem_flat flat rows cols r (c + j) (by omega) hbounds.1 hcj))
    have hexpand : _get_solution g r c L "across" =
        ((List.range L).map (fun j =>
          if _is_letter (cellAt g r (c + j)) then (cellAt g r (c + j)).map Char.toUpper
          else [' '])).flatten := by
      unfold _get_solution
      simp
    rw [hexpand, flatten_singletons _ hones, List.map_map, List.get?_eq_getElem?,
      List.getElem?_map, List.getElem?_range hiL, Option.map_some']
    have hci : c + i < cols := span_lt c L cols i hLle hiL
    have hc1 : (cellAt g r (c + i)).length = 1 :=
      hone _ (cellAt_mem_flat flat rows cols r (c + i) (by omega) hbounds.1 hci)
    obtain ⟨a, hcell⟩ : ∃ a, cellAt g r (c + i) = [a] := by
      cases hcl : cellAt g r (c + i) with
      | nil => rw [hcl] at hc1; simp at hc1
      | cons a y =>
        cases y with
        | nil => exact ⟨a, rfl⟩
        | cons b z => rw [hcl] at hc1; simp at hc1
    by_cases hl : _is_letter [a]
    · simp [Function.comp, hcell, hl]
    · simp [Function.comp, hcell, hl]
  · set g := grid2d flat rows cols with hg
    have hcellE : entryCell g (downEntry g rows cols clues r c num) i
        = cellAt g (r + i) c := by
      simp [entryCell, downEntry]
    set L := _get_word_length g r c rows cols "down" with hL
    have hiL : i < L := hi
    have hsol : (downEntry g rows cols clues r c num).solution =
        _get_solution g r c L "down" := rfl
    rw [hsol, hcellE]
    have hLle : L ≤ rows - r := by
      rw [hL]
      unfold _get_word_length
      rw [if_neg (by decide)]
      exact runFrom_le _ _ _
    have hones : ∀ x ∈ (List.range L).map (fun j =>
        if _is_letter (cellAt g (r + j) c) then (cellAt g (r + j) c).map Char.toUpper
        else [' ']), x.length = 1 := by
      intro x hx
      rcases List.mem_map.mp hx with ⟨j, hj, rfl⟩
      rw [List.mem_range] at hj
      have hrj : r + j < rows := span_lt r L rows j hLle hj
      exact piece_length_one _
        (hone _ (cellAt_mem_flat flat rows cols (r + j) c (by omega) hrj hbounds.2))
    have hexpand : _get_solution g r c L "down" =
        ((List.range L).map (fun j =>
          if _is_letter (cellAt g (r + j) c) then (cellAt g (r + j) c).map Char.toUpper
          else [' '])).flatten := by
      unfold _get_solution
      simp
    rw [hexpand, flatten_singletons _ hones, List.map_map, List.get?_eq_getElem?,
      List.getElem?_map, List.getElem?_range hiL, Option.map_some']
    have hri : r + i < rows := span_lt r L rows i hLle hiL
    have hc1 : (cellAt g (r + i) c).length = 1 :=
      hone _ (cellAt_mem_flat flat rows cols (r + i) c (by omega) hri hbounds.2)
    obtain ⟨a, hcell⟩ : ∃ a, cellAt g (r + i) c = [a] := by
      cases hcl : cellAt g (r + i) c with
      | nil => rw [hcl] at hc1; simp at hc1
      | cons a y =>
        cases y with
        | nil => exact ⟨a, rfl⟩
        | cons b z => rw [hcl] at hc1; simp at hc1
    by_cases hl : _is_letter [a]
    · simp [Function.comp, hcell, hl]
    · simp [Function.comp, hcell, hl]

/-- Witness for C7 at a concrete 1×3 grid with an unset middle cell. -/
theorem C7_solution_cells_witness :
    ([['C'], [' '], ['T']] : List Cell).length = 1 * 3 ∧
    (∀ s ∈ ([['C'], [' '], ['T']] : List Cell), s.length = 1) ∧
    (∀ e ∈ _find_entries (grid2d [['C'], [' '], ['T']] 1 3) 1 3 [], ∀ i, i < e.length →
      e.solution.get? i = some
        (if _is_letter (entryCell (grid2d [['C'], [' '], ['T']] 1 3) e i) then
          ((entryCell (grid2d [['C'], [' '], ['T']] 1 3) e i).headD ' ').toUpper
        else ' ')) :=
  ⟨by decide, by decide, C7_solution_cells [['C'], [' '], ['T']] 1 3 [] (by decide) (by decide)⟩

/-! ### Defaults and missing clues (claim C8) -/

/-- When no clue matches the `(number, direction)` key, the lookup falls
back to the empty string. -/
theorem clueMapGet_eq_default (clues : List Clue) (num dirCode : Nat)
    (h : ∀ cl ∈ clues, ¬(cl.num = num ∧ cl.dir = dirCode)) :
    clueMapGet clues num dirCode = "" := by
  unfold clueMapGet
  have hnil : clues.filter (fun cl => cl.num == num && cl.dir == dirCode) = [] :=
    List.filter_eq_nil_iff.mpr (by
      intro cl hcl
      simp only [Bool.and_eq_true, beq_iff_eq, not_and]
      intro h1 h2
      exact h cl hcl ⟨h1, h2⟩)
  rw [hnil]
  rfl

/-- **C8.**  On a well-sized input the conversion always succeeds, with
missing metadata defaulted (`"Untitled"` title, `"Unknown"` author, empty
id) and a missing clue leaving the affected entry with empty clue text
rather than failing. -/
theorem C8_defaults (now1 now2 now3 : Int) (p : CrosshareInput)
    (h : p.grid.length = p.rows * p.cols) :
    ∃ out, crosshare_to_capi now1 now2 now3 p = some out ∧
      (p.title = none → out.name = "Untitled") ∧
      (p.authorName = none → out.creator.name = "Unknown") ∧
      (p.id = none → out.id = "") ∧
      (∀ e ∈ out.entries,
        (e.direction = "across" →
          (∀ cl ∈ p.clues.getD [], ¬(cl.num = e.number ∧ cl.dir = 0)) → e.clue = "") ∧
        (e.direction = "down" →
          (∀ cl ∈ p.clues.getD [], ¬(cl.num = e.number ∧ cl.dir = 1)) → e.clue = "")) := by
  have hout : crosshare_to_capi now1 now2 now3 p = some
      { id := p.id.getD ""
        number := 0
        name := p.title.getD "Untitled"
        creator := { name := p.authorName.getD "Unknown", webUrl := "" }
        date := now1
        webPublicationDate := now2
        dimensionsCols := p.cols
        dimensionsRows := p.rows
        crosswordType := "quick"
        solutionAvailable := true
        dateSolutionAvailable := now3
        entries := _find_entries (grid2d p.grid p.rows p.cols) p.rows p.cols
          (p.clues.getD []) } := by
    unfold crosshare_to_capi
    rw [build_eq_some p.grid p.rows p.cols (by omega)]
    rfl
  refine ⟨_, hout, ?_, ?_, ?_, ?_⟩
  · intro ht
    simp [ht]
  · intro ht
    simp [ht]
  · intro ht
    simp [ht]
  · intro e he
    rcases mem_find_entries _ p.rows p.cols (p.clues.getD []) e he
      with ⟨r, c, num, hmem, hcase⟩
    rcases hcase with ⟨ha, rfl⟩ | ⟨hd, rfl⟩
    · constructor
      · intro _ hnone
        have hclue : (acrossEntry (grid2d p.grid p.rows p.cols) p.rows p.cols
            (p.clues.getD []) r c num).clue = clueMapGet (p.clues.getD []) num 0 := rfl
        rw [hclue]
        exact clueMapGet_eq_default _ num 0 (fun cl hcl => hnone cl hcl)
      · intro hdir
        simp [acrossEntry] at hdir
    · constructor
      · intro hdir
        simp [downEntry] at hdir
      · intro _ hnone
        have hclue : (downEntry (grid2d p.grid p.rows p.cols) p.rows p.cols
            (p.clues.getD []) r c num).clue = clueMapGet (p.clues.getD []) num 1 := rfl
        rw [hclue]
        exact clueMapGet_eq_default _ num 1 (fun cl hcl => hnone cl hcl)

/-- C8 witness input: a well-sized 1×3 grid with no clues and no
metadata. -/
def bareInput : CrosshareInput :=
  { rows := 1, cols := 3, grid := [['C'], ['A'], ['T']],
    clues := none, id := none, title := none, authorName := none }

/-- Witness for C8 at `bareInput`. -/
theorem C8_defaults_witness :
    bareInput.grid.length = bareInput.rows * bareInput.cols ∧
    ∃ out, crosshare_to_capi 0 0 0 bareInput = some out ∧
      (bareInput.title = none → out.name = "Untitled") ∧
      (bareInput.authorName = none → out.creator.name = "Unknown") ∧
      (bareInput.id = none → out.id = "") ∧
      (∀ e ∈ out.entries,
        (e.direction = "across" →
          (∀ cl ∈ bareInput.clues.getD [], ¬(cl.num = e.number ∧ cl.dir = 0)) →
            e.clue = "") ∧
        (e.direction = "down" →
          (∀ cl ∈ bareInput.clues.getD [], ¬(cl.num = e.number ∧ cl.dir = 1)) →
            e.clue = "")) :=
  ⟨by decide, C8_defaults 0 0 0 bareInput (by decide)⟩

/-! ### Counting entries on a block-free grid (claim C5) -/

/-- Every cell of the 2D build is either the out-of-range default or a
member of the flat array. -/
theorem cellAt_grid2d_cases (flat : List Cell) (rows cols r c : Nat) :
    cellAt (grid2d flat rows cols) r c = [] ∨ cellAt (grid2d flat rows cols) r c ∈ flat := by
  by_cases hr : r < rows
  · by_cases hc : c < cols
    · rw [cellAt_grid2d flat rows cols r c hr hc]
      by_cases hidx : r * cols + c < flat.length
      · right
        rw [List.getD_eq_getElem?_getD, List.getElem?_eq_getElem hidx]
        simp
      · left
        rw [List.getD_eq_getElem?_getD, List.getElem?_eq_none (by omega)]
        rfl
    · left
      unfold cellAt grid2d
      simp only [List.getD_eq_getElem?_getD, List.getElem?_map, List.getElem?_range hr,
        Option.map_some', Option.getD_some]
      have hx : (List.range cols)[c]? = none :=
        List.getElem?_eq_none (by simp; omega)
      rw [hx]
      rfl
  · left
    unfold cellAt grid2d
    simp only [List.getD_eq_getElem?_getD]
    have hx : (List.map (fun r => List.map (fun c => flat[r * cols + c]?.getD [])
        (List.range cols)) (List.range rows))[r]? = none :=
      List.getElem?_eq_none (by simp; omega)
    rw [hx]
    rfl

/-- On a grid built from a block-free flat array no cell is a block (the
out-of-range default `""` is not the block token either). -/
theorem cellAt_not_block (flat : List Cell) (rows cols : Nat)
    (hnb : ∀ s ∈ flat, _is_block s = false) (r c : Nat) :
    _is_block (cellAt (grid2d flat rows cols) r c) = false := by
  rcases cellAt_grid2d_cases flat rows cols r c with he | hm
  · rw [he]
    rfl
  · exact hnb _ hm

/-- On a block-free grid, a cell starts an across word exactly when it is
in column 0 and a column to its right exists. -/
theorem starts_across_no_blocks (flat : List Cell) (rows cols : Nat)
    (hnb : ∀ s ∈ flat, _is_block s = false) (r c : Nat) :
    _starts_across_word (grid2d flat rows cols) r c rows cols =
      ((c == 0) && decide (c + 1 < cols)) := by
  have h0 := cellAt_not_block flat rows cols hnb r c
  have h1 := cellAt_not_block flat rows cols hnb r (c - 1)
  have h2 := cellAt_not_block flat rows cols hnb r (c + 1)
  unfold _starts_across_word
  rw [h0, h1, h2]
  simp

/-- On a block-free grid, a cell starts a down word exactly when it is
in row 0 and a row below exists. -/
theorem starts_down_no_blocks (flat : List Cell) (rows cols : Nat)
    (hnb : ∀ s ∈ flat, _is_block s = false) (r c : Nat) :
    _starts_down_word (grid2d flat rows cols) r c rows cols =
      ((r == 0) && decide (r + 1 < rows)) := by
  have h0 := cellAt_not_block flat rows cols hnb r c
  have h1 := cellAt_not_block flat rows cols hnb (r - 1) c
  have h2 := cellAt_not_block flat rows cols hnb (r + 1) c
  unfold _starts_down_word
  rw [h0, h1, h2]
  simp

/-- Count over a flatMap is the sum of the per-element counts. -/
theorem countP_flatMap {α β : Type} (p : β → Bool) (f : α → List β) :
    ∀ l : List α, (l.flatMap f).countP p = (l.map (fun a => (f a).countP p)).sum
  | [] => rfl
  | a :: t => by
    rw [show (a :: t).flatMap f = f a ++ t.flatMap f from by simp [List.flatMap]]
    rw [List.countP_append, countP_flatMap p f t]
    simp

/-- Each row of a block-free grid contributes exactly one across start
(its column 0), provided the grid is at least two columns wide. -/
theorem countP_range_start (cols : Nat) (hC : 2 ≤ cols) :
    (List.range cols).countP (fun c => (c == 0) && decide (c + 1 < cols)) = 1 := by
  obtain ⟨k, rfl⟩ : ∃ k, cols = k + 2 := ⟨cols - 2, by omega⟩
  rw [List.range_succ_eq_map, List.countP_cons_of_pos _ _ (by simp), List.countP_map,
    List.countP_eq_zero.mpr]
  intro x hx
  simp [Function.comp]

/-- The across-entry count of the second pass equals the number of
scanned cells that start an across word. -/
theorem length_filter_across (g : List (List Cell)) (rows cols : Nat) (clues : List Clue) :
    ∀ l : List ((Nat × Nat) × Nat),
      ((l.flatMap (entriesFor g rows cols clues)).filter
        (fun e => e.direction == "across")).length =
      l.countP (fun q => _starts_across_word g q.1.1 q.1.2 rows cols)
  | [] => rfl
  | q :: t => by
    rw [show (q :: t).flatMap (entriesFor g rows cols clues) =
        entriesFor g rows cols clues q ++ t.flatMap (entriesFor g rows cols clues) from by
      simp [List.flatMap]]
    rw [List.filter_append, List.length_append,
      length_filter_across g rows cols clues t, List.countP_cons]
    have hA : ((entriesFor g rows cols clues q).filter
        (fun e => e.direction == "across")).length =
        if _starts_across_word g q.1.1 q.1.2 rows cols then 1 else 0 := by
      unfold entriesFor
      by_cases ha : _starts_across_word g q.1.1 q.1.2 rows cols <;>
        by_cases hd : _starts_down_word g q.1.1 q.1.2 rows cols <;>
          simp [ha, hd, acrossEntry, downEntry]
    rw [hA]
    exact Nat.add_comm _ _

/-- The down-entry count of the second pass equals the number of scanned
cells that start a down word. -/
theorem length_filter_down (g : List (List Cell)) (rows cols : Nat) (clues : List Clue) :
    ∀ l : List ((Nat × Nat) × Nat),
      ((l.flatMap (entriesFor g rows cols clues)).filter
        (fun e => e.direction == "down")).length =
      l.countP (fun q => _starts_down_word g q.1.1 q.1.2 rows cols)
  | [] => rfl
  | q :: t => by
    rw [show (q :: t).flatMap (entriesFor g rows cols clues) =
        entriesFor g rows cols clues q ++ t.flatMap (entriesFor g rows cols clues) from by
      simp [List.flatMap]]
    rw [List.filter_append, List.length_append,
      length_filter_down g rows cols clues t, List.countP_cons]
    have hD : ((entriesFor g rows cols clues q).filter
        (fun e => e.direction == "down")).length =
        if _starts_down_word g q.1.1 q.1.2 rows cols then 1 else 0 := by
      unfold entriesFor
      by_cases ha : _starts_across_word g q.1.1 q.1.2 rows cols <;>
        by_cases hd : _starts_down_word g q.1.1 q.1.2 rows cols <;>
          simp [ha, hd, acrossEntry, downEntry]
    rw [hD]
    exact Nat.add_comm _ _

/-- Counting a key-only predicate over the numbered cells is counting it
conjoined with the numbering test over the scanned cells. -/
theorem countP_numberFrom {α : Type} (q pred : α → Bool) :
    ∀ (l : List α) (n : Nat),
      (numberFrom pred l n).countP (fun x => q x.1) =
        l.countP (fun a => q a && pred a)
  | [], _ => rfl
  | a :: t, n => by
    by_cases h : pred a
    · rw [numberFrom, if_pos h, List.countP_cons, countP_numberFrom q pred t (n + 1),
        List.countP_cons]
      simp [h]
    · rw [numberFrom, if_neg h, countP_numberFrom q pred t n, List.countP_cons]
      simp [h]

/-- Count of a predicate that holds on every element. -/
theorem countP_all {α : Type} (p : α → Bool) :
    ∀ l : List α, (∀ x ∈ l, p x = true) → l.countP p = l.length
  | [], _ => rfl
  | a :: t, h => by
    rw [List.countP_cons_of_pos _ _ (h a (by simp)),
      countP_all p t (fun x hx => h x (by simp [hx]))]
    simp

/-- Sum of a map whose values are all 0. -/
theorem sum_map_zeros {α : Type} (f : α → Nat) :
    ∀ l : List α, (∀ x ∈ l, f x = 0) → (l.map f).sum = 0
  | [], _ => rfl
  | a :: t, h => by
    have ha : f a = 0 := h a (by simp)
    have ht := sum_map_zeros f t (fun x hx => h x (by simp [hx]))
    simp [ha, ht]

/-- On a block-free grid at least two columns wide, the across starts are
exactly the `rows` cells of column 0. -/
theorem count_across_rowMajor (flat : List Cell) (rows cols : Nat)
    (hC : 2 ≤ cols) (hnb : ∀ s ∈ flat, _is_block s = false) :
    (rowMajor rows cols).countP (fun rc =>
      _starts_across_word (grid2d flat rows cols) rc.1 rc.2 rows cols) = rows := by
  have hcongr : (rowMajor rows cols).countP (fun rc =>
      _starts_across_word (grid2d flat rows cols) rc.1 rc.2 rows cols) =
      (rowMajor rows cols).countP (fun rc => (rc.2 == 0) && decide (rc.2 + 1 < cols)) :=
    List.countP_congr (fun rc _ => by
      rw [starts_across_no_blocks flat rows cols hnb rc.1 rc.2])
  rw [hcongr]
  unfold rowMajor
  rw [countP_flatMap]
  have hrows : ∀ r ∈ List.range rows, ((List.range cols).map (fun c => (r, c))).countP
      (fun rc => (rc.2 == 0) && decide (rc.2 + 1 < cols)) = 1 := by
    intro r hr
    rw [List.countP_map]
    exact countP_range_start cols hC
  rw [sum_map_ones _ _ hrows, List.length_range]

/-- On a block-free grid at least two rows tall, the down starts are
exactly the `cols` cells of row 0. -/
theorem count_down_rowMajor (flat : List Cell) (rows cols : Nat)
    (hR : 2 ≤ rows) (hnb : ∀ s ∈ flat, _is_block s = false) :
    (rowMajor rows cols).countP (fun rc =>
      _starts_down_word (grid2d flat rows cols) rc.1 rc.2 rows cols) = cols := by
  have hcongr : (rowMajor rows cols).countP (fun rc =>
      _starts_down_word (grid2d flat rows cols) rc.1 rc.2 rows cols) =
      (rowMajor rows cols).countP (fun rc => (rc.1 == 0) && decide (rc.1 + 1 < rows)) :=
    List.countP_congr (fun rc _ => by
      rw [starts_down_no_blocks flat rows cols hnb rc.1 rc.2])
  rw [hcongr]
  unfold rowMajor
  rw [countP_flatMap]
  obtain ⟨m, rfl⟩ : ∃ m, rows = m + 1 := ⟨rows - 1, by omega⟩
  rw [List.range_succ_eq_map]
  simp only [List.map_cons, List.map_map, List.sum_cons]
  have h0 : ((List.range cols).map (fun c => ((0 : Nat), c))).countP
      (fun rc => (rc.1 == 0) && decide (rc.1 + 1 < m + 1)) = cols := by
    rw [List.countP_map]
    have := countP_all ((fun rc : Nat × Nat => (rc.1 == 0) && decide (rc.1 + 1 < m + 1)) ∘
      (fun c => ((0 : Nat), c))) (List.range cols) (by
        intro x hx
        simp [Function.comp]
        omega)
    rw [this, List.length_range]
  rw [h0]
  have hrest : (List.map ((fun a => ((List.range cols).map (fun c => (a, c))).countP
      (fun rc => (rc.1 == 0) && decide (rc.1 + 1 < m + 1))) ∘ Nat.succ)
        (List.range m)).sum = 0 := by
    apply sum_map_zeros
    intro x hx
    simp only [Function.comp]
    rw [List.countP_map]
    rw [List.countP_eq_zero.mpr]
    intro c hc
    simp [Function.comp]
  rw [hrest]
  omega

/-- The 2×3 block-free grid A B C / D E F, flattened. -/
def abcFlat : List Cell := [['A'], ['B'], ['C'], ['D'], ['E'], ['F']]

/-- **C5, counterexample.**  The claim says a block-free R×C grid yields
R DOWN entries and C ACROSS entries.  On the block-free 2×3 grid
(R = 2, C = 3) the extractor emits 2 across entries and 3 down entries,
so the claimed counts (3 across, 2 down) are wrong: the two directions
are swapped. -/
theorem C5_counterexample :
    (2 ≤ 2 ∧ 2 ≤ 3 ∧ abcFlat.length = 2 * 3 ∧
      ∀ s ∈ abcFlat, _is_block s = false) ∧
    ¬ (((_find_entries (grid2d abcFlat 2 3) 2 3 []).filter
          (fun e => e.direction == "down")).length = 2 ∧
        ((_find_entries (grid2d abcFlat 2 3) 2 3 []).filter
          (fun e => e.direction == "across")).length = 3) := by
  decide

/-- **C5 (amended).**  For all R, C ≥ 2, a block-free grid of R rows and
C columns yields exactly R ACROSS entries and exactly C DOWN entries
(the original claim swaps the two directions). -/
theorem C5_no_block_counts (flat : List Cell) (R C : Nat) (clues : List Clue)
    (hR : 2 ≤ R) (hC : 2 ≤ C) (hlen : flat.length = R * C)
    (hnb : ∀ s ∈ flat, _is_block s = false) :
    ((_find_entries (grid2d flat R C) R C clues).filter
      (fun e => e.direction == "across")).length = R ∧
    ((_find_entries (grid2d flat R C) R C clues).filter
      (fun e => e.direction == "down")).length = C := by
  constructor
  · unfold _find_entries
    rw [length_filter_across, cell_numbers_eq]
    have h1 := countP_numberFrom
      (fun rc : Nat × Nat => _starts_across_word (grid2d flat R C) rc.1 rc.2 R C)
      (numbersCell (grid2d flat R C) R C) (rowMajor R C) 1
    have h2 : (rowMajor R C).countP (fun a =>
        _starts_across_word (grid2d flat R C) a.1 a.2 R C &&
          numbersCell (grid2d flat R C) R C a) =
        (rowMajor R C).countP (fun a =>
          _starts_across_word (grid2d flat R C) a.1 a.2 R C) :=
      List.countP_congr (fun rc _ => by
        rw [numbersCell_eq_or]
        by_cases ha : _starts_across_word (grid2d flat R C) rc.1 rc.2 R C <;> simp [ha])
    exact h1.trans (h2.trans (count_across_rowMajor flat R C hC hnb))
  · unfold _find_entries
    rw [length_filter_down, cell_numbers_eq]
    have h1 := countP_numberFrom
      (fun rc : Nat × Nat => _starts_down_word (grid2d flat R C) rc.1 rc.2 R C)
      (numbersCell (grid2d flat R C) R C) (rowMajor R C) 1
    have h2 : (rowMajor R C).countP (fun a =>
        _starts_down_word (grid2d flat R C) a.1 a.2 R C &&
          numbersCell (grid2d flat R C) R C a) =
        (rowMajor R C).countP (fun a =>
          _starts_down_word (grid2d flat R C) a.1 a.2 R C) :=
      List.countP_congr (fun rc _ => by
        rw [numbersCell_eq_or]
        by_cases hd : _starts_down_word (grid2d flat R C) rc.1 rc.2 R C <;> simp [hd])
    exact h1.trans (h2.trans (count_down_rowMajor flat R C hR hnb))

/-- Witness for the amended C5 at the block-free 2×3 grid. -/
theorem C5_no_block_counts_witness :
    (2 ≤ 2 ∧ 2 ≤ 3 ∧ abcFlat.length = 2 * 3 ∧
      ∀ s ∈ abcFlat, _is_block s = false) ∧
    (((_find_entries (grid2d abcFlat 2 3) 2 3 []).filter
        (fun e => e.direction == "across")).length = 2 ∧
      ((_find_entries (grid2d abcFlat 2 3) 2 3 []).filter
        (fun e => e.direction == "down")).length = 3) :=
  ⟨⟨by decide, by decide, by decide, by decide⟩,
    C5_no_block_counts abcFlat 2 3 [] (by decide) (by decide) (by decide) (by decide)⟩

/-! ### Clue-count import filter (claim C9) -/

/-- **C9.**  `is_valid_puzzle_size` holds exactly for clue counts 61
through 79: the bounds `MIN_CLUES = 60` and `MAX_CLUES = 80` are strict,
so a puzzle with exactly 60 or exactly 80 clues is rejected (and skipped
by the import loop, which drops any puzzle failing this predicate). -/
theorem C9_valid_size_iff (p : CrosshareInput) :
    is_valid_puzzle_size p = true ↔
      61 ≤ get_clue_count p ∧ get_clue_count p ≤ 79 := by
  unfold is_valid_puzzle_size MIN_CLUES MAX_CLUES
  simp
  omega

/-! ### Progress cell updates (claim C10) -/

/-- A single cell update leaves every other key untouched. -/
theorem stepCell_other (s : String → Option (List Char)) (kv : String × List Char)
    (k : String) (hk : k ≠ kv.1) : stepCell s kv k = s k := by
  unfold stepCell
  by_cases hv : kv.2 ≠ []
  · rw [if_pos hv, if_neg hk]
  · rw [if_neg hv]
    by_cases hs : (s kv.1).isSome
    · rw [if_pos hs, if_neg hk]
    · rw [if_neg hs]

/-- A single cell update stores the uppercased value at its key when the
value is non-empty, and leaves the key absent otherwise. -/
theorem stepCell_self (s : String → Option (List Char)) (kv : String × List Char) :
    stepCell s kv kv.1 =
      if kv.2 ≠ [] then some (kv.2.map Char.toUpper) else none := by
  unfold stepCell
  by_cases hv : kv.2 ≠ []
  · rw [if_pos hv, if_pos rfl, if_pos hv]
  · rw [if_neg hv, if_neg hv]
    by_cases hs : (s kv.1).isSome
    · rw [if_pos hs, if_pos rfl]
    · rw [if_neg hs]
      exact Option.not_isSome_iff_eq_none.mp hs

/-- The whole update loop leaves unmentioned keys untouched. -/
theorem update_cells_frame (cells : List (String × List Char)) :
    ∀ (store : String → Option (List Char)) (k : String),
      k ∉ cells.map Prod.fst → update_cells store cells k = store k := by
  induction cells with
  | nil => intro store k _; rfl
  | cons kv t ih =>
    intro store k hk
    have hk1 : k ≠ kv.1 := by
      intro h
      exact hk (by simp [h])
    have hkt : k ∉ t.map Prod.fst := by
      intro h
      exact hk (by simp [h])
    show update_cells (stepCell store kv) t k = store k
    rw [ih (stepCell store kv) k hkt, stepCell_other store kv k hk1]

/-- With distinct request keys, the value of a requested key after the
loop is determined by the pair that mentions it. -/
theorem update_cells_set (cells : List (String × List Char)) :
    ∀ (store : String → Option (List Char)) (kv : String × List Char),
      (cells.map Prod.fst).Nodup → kv ∈ cells →
      update_cells store cells kv.1 =
        if kv.2 ≠ [] then some (kv.2.map Char.toUpper) else none := by
  induction cells with
  | nil =>
    intro store kv _ h
    simp at h
  | cons a t ih =>
    intro store kv hnd hkv
    rcases List.mem_cons.mp hkv with rfl | hmem
    · have hnt : kv.1 ∉ t.map Prod.fst := by
        rw [List.map_cons, List.nodup_cons] at hnd
        exact hnd.1
      show update_cells (stepCell store kv) t kv.1 = _
      rw [update_cells_frame t (stepCell store kv) kv.1 hnt, stepCell_self]
    · have hnd' : (t.map Prod.fst).Nodup := by
        rw [List.map_cons, List.nodup_cons] at hnd
        exact hnd.2
      show update_cells (stepCell store a) t kv.1 = _
      exact ih (stepCell store a) kv hnd' hmem

/-- **C10.**  A progress update touches exactly the requested keys: with
pairwise-distinct request keys, a pair with a non-empty value ends with
the uppercased value stored at its key, a pair with an empty value ends
with its key absent, and every key not mentioned in the request keeps its
previous value. -/
theorem C10_update_progress (store : String → Option (List Char))
    (cells : List (String × List Char)) (hnd : (cells.map Prod.fst).Nodup) :
    (∀ k, k ∉ cells.map Prod.fst → update_cells store cells k = store k) ∧
    (∀ kv ∈ cells, kv.2 ≠ [] →
      update_cells store cells kv.1 = some (kv.2.map Char.toUpper)) ∧
    (∀ kv ∈ cells, kv.2 = [] → update_cells store cells kv.1 = none) := by
  refine ⟨fun k => update_cells_frame cells store k, ?_, ?_⟩
  · intro kv hkv hv
    rw [update_cells_set cells store kv hnd hkv, if_pos hv]
  · intro kv hkv hv
    rw [update_cells_set cells store kv hnd hkv, if_neg (fun hne => hne hv)]

/-- A concrete one-cell store for the C10 witness: only key 0,0 holds A. -/
def storeW : String → Option (List Char) :=
  fun k => if k = "0,0" then some ['a'] else none

/-- The concrete C10 witness request: fill 0,1 with b, clear 0,0. -/
def cellsW : List (String × List Char) := [("0,1", ['b']), ("0,0", [])]

/-- Witness for C10 at a concrete store and request. -/
theorem C10_update_progress_witness :
    (cellsW.map Prod.fst).Nodup ∧
    update_cells storeW cellsW "9,9" = storeW "9,9" ∧
    update_cells storeW cellsW "0,1" = some (['b'].map Char.toUpper) ∧
    update_cells storeW cellsW "0,0" = none :=
  ⟨by decide,
    (C10_update_progress storeW cellsW (by decide)).1 "9,9" (by decide),
    (C10_update_progress storeW cellsW (by decide)).2.1 ("0,1", ['b']) (by decide) (by decide),
    (C10_update_progress storeW cellsW (by decide)).2.2 ("0,0", []) (by decide) (by decide)⟩
